import Mathlib

/-!
Verification of the schema-profiling core of `llm_schemaMapping`.

The Python sources under `src/src/profiler/` are shallowly embedded below:
pure functions become Lean functions, iteration-with-append becomes
`List.map` / `List.bind` / `List.filterMap` / `List.foldl`, Python `dict`s
become association lists with insertion-order iteration and
update-in-place semantics, and float ratio comparisons become exact
rational comparisons (all thresholds and counts involved are small
rationals far apart, so the float and rational comparisons agree).
Python string primitives (`lower`, `strip`, `endswith`, `in`) are
implemented over the character list of a `String` so that concrete
instances evaluate inside the kernel.
-/

namespace SchemaMapping

/-! ## String primitives (Python `lower`, `strip`, `endswith`, `in`) -/

/-- ASCII lower-casing of one character, mirroring Python `str.lower` on the
ASCII inputs that appear in this code base. -/
def charLower (c : Char) : Char :=
  match c with
  | 'A' => 'a' | 'B' => 'b' | 'C' => 'c' | 'D' => 'd' | 'E' => 'e'
  | 'F' => 'f' | 'G' => 'g' | 'H' => 'h' | 'I' => 'i' | 'J' => 'j'
  | 'K' => 'k' | 'L' => 'l' | 'M' => 'm' | 'N' => 'n' | 'O' => 'o'
  | 'P' => 'p' | 'Q' => 'q' | 'R' => 'r' | 'S' => 's' | 'T' => 't'
  | 'U' => 'u' | 'V' => 'v' | 'W' => 'w' | 'X' => 'x' | 'Y' => 'y'
  | 'Z' => 'z'
  | _ => c

/-- Python `s.lower()`. -/
def strLower (s : String) : String := ⟨s.data.map charLower⟩

/-- Python `s.endswith(suffix)`. -/
def strEndsWith (s suffix : String) : Bool := suffix.data.isSuffixOf s.data

/-- Python `s.startswith(p)`. -/
def strStartsWith (s p : String) : Bool := p.data.isPrefixOf s.data

/-- The whitespace characters Python `str.strip` removes (the ones relevant
to this code base). -/
def isSpaceChar (c : Char) : Bool := c = ' ' || c = '\t' || c = '\n' || c = '\r'

/-- Python `s.strip()`. -/
def strStrip (s : String) : String :=
  ⟨((s.data.dropWhile isSpaceChar).reverse.dropWhile isSpaceChar).reverse⟩

/-- Lexicographic comparison of character lists by code point, mirroring
Python string `<=` (used as a sort key). -/
def charListLe : List Char → List Char → Bool
  | [], _ => true
  | _ :: _, [] => false
  | a :: as, b :: bs =>
    if a.toNat < b.toNat then true
    else if b.toNat < a.toNat then false
    else charListLe as bs

/-- Python string `<=` on the underlying code points. -/
def strLe (a b : String) : Bool := charListLe a.data b.data

theorem charListLe_total : ∀ x y : List Char, charListLe x y = true ∨ charListLe y x = true := by
  intro x
  induction x with
  | nil => intro y; left; rfl
  | cons a as ih =>
    intro y
    cases y with
    | nil => right; rfl
    | cons b bs =>
      by_cases hab : a.toNat < b.toNat
      · left; simp [charListLe, hab]
      · by_cases hba : b.toNat < a.toNat
        · right; simp [charListLe, hba]
        · rcases ih bs with h | h
          · left; simp [charListLe, hab, hba, h]
          · right; simp [charListLe, hab, hba, h]

theorem charListLe_trans : ∀ x y z : List Char,
    charListLe x y = true → charListLe y z = true → charListLe x z = true := by
  intro x
  induction x with
  | nil => intro y z _ _; rfl
  | cons a as ih =>
    intro y z hxy hyz
    cases y with
    | nil => simp [charListLe] at hxy
    | cons b bs =>
      cases z with
      | nil => simp [charListLe] at hyz
      | cons c cs =>
        simp only [charListLe] at hxy hyz ⊢
        rcases Nat.lt_trichotomy a.toNat b.toNat with hab | hab | hab
        · rcases Nat.lt_trichotomy b.toNat c.toNat with hbc | hbc | hbc
          · rw [if_pos (by omega)]
          · rw [if_pos (by omega)]
          · rw [if_neg (by omega), if_pos (by omega)] at hyz
            simp at hyz
        · rw [if_neg (by omega), if_neg (by omega)] at hxy
          rcases Nat.lt_trichotomy b.toNat c.toNat with hbc | hbc | hbc
          · rw [if_pos (by omega)]
          · rw [if_neg (by omega), if_neg (by omega)] at hyz
            rw [if_neg (by omega), if_neg (by omega)]
            exact ih bs cs hxy hyz
          · rw [if_neg (by omega), if_pos (by omega)] at hyz
            simp at hyz
        · rw [if_neg (by omega), if_pos (by omega)] at hxy
          simp at hxy

theorem strLe_total (a b : String) : strLe a b = true ∨ strLe b a = true :=
  charListLe_total a.data b.data

theorem strLe_trans (a b c : String) (h₁ : strLe a b = true) (h₂ : strLe b c = true) :
    strLe a c = true :=
  charListLe_trans a.data b.data c.data h₁ h₂

/-! ## Stable sort

Python's `sorted(..., key=...)` and `list.sort(key=...)` are stable sorts.
`stableSort le` is a stable insertion sort: among elements the comparator
ties, the original order is preserved, matching CPython's behaviour. -/

/-- Insert `x` (which originally came before every element of the list)
keeping the list sorted by `le`; on ties `x` stays in front. -/
def insertStable (le : α → α → Bool) (x : α) : List α → List α
  | [] => [x]
  | y :: ys => if le x y then x :: y :: ys else y :: insertStable le x ys

/-- Stable sort by the Boolean comparator `le`. -/
def stableSort (le : α → α → Bool) : List α → List α
  | [] => []
  | x :: xs => insertStable le x (stableSort le xs)

theorem insertStable_perm (le : α → α → Bool) (x : α) :
    ∀ l : List α, (insertStable le x l).Perm (x :: l) := by
  intro l
  induction l with
  | nil => simp [insertStable]
  | cons y ys ih =>
    by_cases h : le x y = true
    · simp [insertStable, h]
    · have hrw : insertStable le x (y :: ys) = y :: insertStable le x ys := by
        simp [insertStable, h]
      rw [hrw]
      exact (ih.cons y).trans (List.Perm.swap x y ys)

theorem stableSort_perm (le : α → α → Bool) :
    ∀ l : List α, (stableSort le l).Perm l := by
  intro l
  induction l with
  | nil => simp [stableSort]
  | cons x xs ih => exact (insertStable_perm le x _).trans (ih.cons x)

theorem mem_stableSort (le : α → α → Bool) (l : List α) (a : α) :
    a ∈ stableSort le l ↔ a ∈ l :=
  (stableSort_perm le l).mem_iff

theorem length_stableSort (le : α → α → Bool) (l : List α) :
    (stableSort le l).length = l.length :=
  (stableSort_perm le l).length_eq

/-- Sortedness with respect to a Boolean comparator. -/
def SortedBy (le : α → α → Bool) (l : List α) : Prop :=
  l.Pairwise (fun a b => le a b = true)

theorem insertStable_sorted (le : α → α → Bool)
    (htot : ∀ a b, le a b = true ∨ le b a = true)
    (htrans : ∀ a b c, le a b = true → le b c = true → le a c = true)
    (x : α) : ∀ l : List α, SortedBy le l → SortedBy le (insertStable le x l) := by
  intro l
  induction l with
  | nil => intro _; simp [insertStable, SortedBy]
  | cons y ys ih =>
    intro hs
    have hy : ∀ b ∈ ys, le y b = true := fun b hb => List.rel_of_pairwise_cons hs hb
    have hys : SortedBy le ys := hs.of_cons
    by_cases h : le x y = true
    · have hrw : insertStable le x (y :: ys) = x :: y :: ys := by simp [insertStable, h]
      rw [hrw]
      refine List.Pairwise.cons ?_ hs
      intro b hb
      rcases List.mem_cons.mp hb with rfl | hb
      · exact h
      · exact htrans x y b h (hy b hb)
    · have hrw : insertStable le x (y :: ys) = y :: insertStable le x ys := by
        simp [insertStable, h]
      rw [hrw]
      refine List.Pairwise.cons ?_ (ih hys)
      intro b hb
      rw [(insertStable_perm le x ys).mem_iff] at hb
      rcases List.mem_cons.mp hb with heq | hb
      · rw [heq]
        rcases htot x y with h1 | h1
        · exact absurd h1 h
        · exact h1
      · exact hy b hb

theorem stableSort_sorted (le : α → α → Bool)
    (htot : ∀ a b, le a b = true ∨ le b a = true)
    (htrans : ∀ a b c, le a b = true → le b c = true → le a c = true) :
    ∀ l : List α, SortedBy le (stableSort le l) := by
  intro l
  induction l with
  | nil => simp [stableSort, SortedBy]
  | cons x xs ih => exact insertStable_sorted le htot htrans x _ ih

/-! ## Data model (`schema_models.py`)

`ColumnProfile`, `TableProfile` and `SchemaProfile` dataclasses. Sample
values (Python `Any`) are embedded as `Option String`: `none` is Python
`None`, `some s` is the stringified value. A sample row (Python dict) is
an association list, and `pattern_summary` (dict `str -> int`) likewise. -/

/-- The dict stored in `ColumnProfile.foreign_key_reference`
(keys `table`, `column`, `constraint`). -/
structure ForeignKeyRef where
  table : String
  column : String
  constraint : String
deriving DecidableEq

structure ColumnProfile where
  name : String
  data_type : String
  is_nullable : Bool
  is_primary_key : Bool := false
  is_foreign_key : Bool := false
  is_unique : Bool := false
  is_indexed : Bool := false
  max_length : Option Nat := none
  default_value : Option String := none
  column_comment : Option String := none
  ordinal_position : Nat := 0
  detected_patterns : List String := []
  sample_values : List (Option String) := []
  foreign_key_reference : Option ForeignKeyRef := none
deriving DecidableEq

/-- One foreign-key row as produced by `get_foreign_keys`. -/
structure ForeignKeyInfo where
  column_name : String
  referenced_table : String
  referenced_column : String
  constraint_name : String
deriving DecidableEq

/-- One index row as produced by `get_indexes`. -/
structure IndexInfo where
  index_name : String
  column_name : String
  is_unique : Bool
deriving DecidableEq

/-- One sample row: a mapping from column name to value. -/
abbrev Row := List (String × Option String)

/-- Python `row.get(key)`: `None` both when the key is absent and when the
stored value is `None`. -/
def rowGet (row : Row) (key : String) : Option String :=
  match row.find? (fun p => p.1 = key) with
  | some p => p.2
  | none => none

/-- One entry of `potential_fk_candidates`. -/
structure FkCandidate where
  column_name : String
  data_type : String
  reason : String
deriving DecidableEq

structure TableProfile where
  name : String
  schema : Option String := none
  table_type : String := "BASE TABLE"
  table_comment : Option String := none
  estimated_row_count : Nat := 0
  columns : List ColumnProfile := []
  primary_keys : List String := []
  foreign_keys : List ForeignKeyInfo := []
  indexes : List IndexInfo := []
  sample_data : List Row := []
  self_referencing_columns : List String := []
  potential_fk_candidates : List FkCandidate := []
deriving DecidableEq

/-- One relationship dict (`cross_table_relationships` rows carry a
`constraint_name`, `potential_relationships` rows a `reason` and a
`confidence`). -/
structure Relationship where
  rel_type : String
  from_table : String
  from_column : String
  to_table : String
  to_column : String
  constraint_name : Option String := none
  reason : Option String := none
  confidence : Option String := none
deriving DecidableEq

structure SchemaProfile where
  database_name : String
  schema_name : Option String := none
  database_type : String := "unknown"
  total_tables : Nat := 0
  total_columns : Nat := 0
  tables : List TableProfile := []
  cross_table_relationships : List Relationship := []
  potential_relationships : List Relationship := []
  pattern_summary : List (String × Nat) := []
deriving DecidableEq

/-- The configuration fields (`config.py` `ProfilerConfig`) consumed by the
embedded operations. `data_change_threshold` defaults to 0.10. -/
structure ProfilerConfig where
  database_name : String
  schema_name : Option String := none
  include_sample_data : Bool := true
  pattern_recognition_enabled : Bool := true
  validate_relationships : Bool := true
  force_full_profile : Bool := false
  data_change_threshold : ℚ := mkRat 1 10
  sample_data_limit : Nat := 5
  parallel_threshold : Nat := 10
  max_workers : Nat := 4

/-! ## Pattern recognizer (`simple_pattern_recognizer.py`)

The loaded JSON config is a dict `pattern_name -> pattern_info`, embedded
as an association list in insertion order. A compiled regex is embedded as
an abstract Boolean matcher `String → Bool` (Python `re.match` at the start
of the string); `hasRegexKey` embeds the `'regex' in pattern_info` test,
which can be true while compilation failed (`regexCompiled = none`). Float
thresholds are exact rationals; counts are at most 10, so every comparison
performed agrees with the float one. -/

structure PatternInfo where
  field_names : Option (List String) := none
  patterns : Option (List String) := none
  hasRegexKey : Bool := false
  regexCompiled : Option (String → Bool) := none
  valid_values : Option (List String) := none

/-- Source `self.min_match_ratio = 0.8`. -/
def minMatchThreshold : ℚ := mkRat 8 10

/-- The literal `0.95` threshold used for data-only matches. -/
def strongMatchThreshold : ℚ := mkRat 95 100

/-- Source `self.min_sample_size = 3`. -/
def minSampleSize : Nat := 3

/-- Python substring test `needle in hay` on character lists. -/
def listIsInfixOf (needle : List Char) : List Char → Bool
  | [] => needle.isEmpty
  | c :: rest => needle.isPrefixOf (c :: rest) || listIsInfixOf needle rest

/-- Source `_matches_wildcard_pattern`. -/
def matches_wildcard_pattern (fieldName pat : String) : Bool :=
  let fd := fieldName.data
  let pd := pat.data
  if pd.head? = some '*' && pd.getLast? = some '*' then
    listIsInfixOf ((pd.drop 1).dropLast) fd
  else if pd.head? = some '*' then
    (pd.drop 1).isSuffixOf fd
  else if pd.getLast? = some '*' then
    pd.dropLast.isPrefixOf fd
  else
    fd = pd

/-- Source `_matches_field_name`: exact (case-insensitive) name in `field_names`,
or a wildcard in `patterns` matching the lowercased name. -/
def matches_field_name (fieldName : String) (info : PatternInfo) : Bool :=
  let fl := strLower fieldName
  (match info.field_names with
   | some ns => ns.any (fun n => fl = strLower n)
   | none => false) ||
  (match info.patterns with
   | some ps => ps.any (fun p => matches_wildcard_pattern fl (strLower p))
   | none => false)

/-- Source `_test_data_match`: test up to 10 values against the compiled regex,
else against `valid_values` (case-insensitive); `matches / sample_size`
must reach the threshold. Callers always pass a non-empty value list. -/
def test_data_match (info : PatternInfo) (values : List String) (threshold : ℚ) : Bool :=
  let sampleSize := min values.length 10
  match info.regexCompiled with
  | some rx =>
    decide (threshold ≤ mkRat (((values.take sampleSize).filter rx).length) sampleSize)
  | none =>
    match info.valid_values with
    | some vv =>
      let vvl := vv.map strLower
      decide (threshold ≤ mkRat
        (((values.take sampleSize).filter (fun v => vvl.contains (strLower v))).length) sampleSize)
    | none => false

/-- Source `_test_pattern`: field-name and data match at 0.8, or (with a `regex`
key) a data-only match at 0.95. A `None` or empty field name is falsy. -/
def test_pattern (info : PatternInfo) (values : List String) (fieldName : Option String) : Bool :=
  let fnm := match fieldName with
    | none => false
    | some f => if f = "" then false else matches_field_name f info
  let dm := test_data_match info values minMatchThreshold
  if fnm && dm then true
  else if !fnm && dm && info.hasRegexKey then test_data_match info values strongMatchThreshold
  else false

/-- The fixed specificity table of `_resolve_conflicts`
(`specificity.get(x, 0)`). -/
def specificity (p : String) : Nat :=
  match p with
  | "npi_identifier" => 10
  | "email_address" => 9
  | "patient_id" => 8
  | "provider_id" => 8
  | "phone_number" => 7
  | "status_field" => 6
  | "person_name" => 5
  | "date_of_birth" => 5
  | "basic_id_fallback" => 1
  | _ => 0

/-- Comparator for `sorted(detected, key=specificity, reverse=True)`:
descending specificity, stable on ties. -/
def specLe (a b : String) : Bool := decide (specificity b ≤ specificity a)

/-- Source `_resolve_conflicts`. -/
def resolve_conflicts (detected : List String) : List String :=
  if detected.length ≤ 1 then detected
  else
    match stableSort specLe detected with
    | [] => []
    | top :: rest =>
      if top = "npi_identifier" || top = "email_address" then [top]
      else
        match rest with
        | [] => [top]
        | second :: _ =>
          if (specificity second : ℤ) ≥ (specificity top : ℤ) - 2 then [top, second]
          else [top]

/-- The `[str(v).strip() for v in values if v is not None and str(v).strip()]`
comprehension of `detect_patterns`. -/
def strip_values (values : List (Option String)) : List String :=
  values.filterMap (fun v =>
    match v with
    | none => none
    | some s => if strStrip s = "" then none else some (strStrip s))

/-- Source `detect_patterns`: reject short inputs, strip and filter the values,
collect every matching pattern name in config order, resolve conflicts.
The Python locals `string_values` and `detected` are inlined. -/
def detect_patterns (values : List (Option String)) (fieldName : Option String)
    (patternsCfg : List (String × PatternInfo)) : List String :=
  if values.length < minSampleSize then []
  else if (strip_values values).isEmpty then []
  else
    resolve_conflicts (patternsCfg.filterMap
      (fun p => if test_pattern p.2 (strip_values values) fieldName then some p.1 else none))

/-- Conflict resolution as the claim words it: sort by the fixed
specificity table; if the most specific is `npi_identifier` or
`email_address` return only it, otherwise return the most specific plus
the second-most-specific exactly when its specificity is within 2 of the
top. (Spec-side description, to be compared with `resolve_conflicts`.) -/
def resolve_conflicts_claim (detected : List String) : List String :=
  match stableSort specLe detected with
  | [] => []
  | top :: rest =>
    if top = "npi_identifier" || top = "email_address" then [top]
    else
      match rest with
      | [] => [top]
      | second :: _ =>
        if ((specificity top : ℤ) - (specificity second : ℤ)).natAbs ≤ 2 then [top, second]
        else [top]

/-! ## Metadata extractor (`metadata_extractor.py`)

The database query results (column rows, PK/FK/index rows, sample rows,
row counts) enter the embedding as explicit arguments; the extractor's
pure post-processing is embedded. Each Python in-place marking loop
becomes a fold of maps over the column list. -/

/-- Marking loop 1 of `enrich_column_profiles`: set `is_primary_key` for
columns listed in `primary_keys`. -/
def mark_primary_keys (columns : List ColumnProfile) (primaryKeys : List String) :
    List ColumnProfile :=
  columns.map (fun c =>
    if primaryKeys.contains c.name then { c with is_primary_key := true } else c)

/-- Marking loop 2 of `enrich_column_profiles`: set `is_foreign_key` and
the reference for columns named by a foreign key (later keys overwrite). -/
def mark_foreign_keys (columns : List ColumnProfile) (foreignKeys : List ForeignKeyInfo) :
    List ColumnProfile :=
  foreignKeys.foldl (fun cols fk =>
    cols.map (fun c =>
      if c.name = fk.column_name then
        { c with is_foreign_key := true,
                 foreign_key_reference := some
                   { table := fk.referenced_table,
                     column := fk.referenced_column,
                     constraint := fk.constraint_name } }
      else c)) columns

/-- Marking loop 3 of `enrich_column_profiles`: set `is_indexed`, and
`is_unique` when a covering index is unique. -/
def mark_indexed (columns : List ColumnProfile) (indexes : List IndexInfo) :
    List ColumnProfile :=
  indexes.foldl (fun cols idx =>
    cols.map (fun c =>
      if c.name = idx.column_name then
        { c with is_indexed := true, is_unique := c.is_unique || idx.is_unique }
      else c)) columns

/-- Final step of `enrich_column_profiles`: when sample data is non-empty,
every column gets `sample_values = [row.get(name) for row in sample_data[:5]]`
(order preserved, nulls and duplicates kept). -/
def add_sample_values (columns : List ColumnProfile) (sampleData : List Row) :
    List ColumnProfile :=
  if sampleData.isEmpty then columns
  else columns.map (fun c =>
    { c with sample_values := (sampleData.take 5).map (fun row => rowGet row c.name) })

/-- Source `enrich_column_profiles`: the four marking passes in program
order. -/
def enrich_column_profiles (columns : List ColumnProfile) (primaryKeys : List String)
    (foreignKeys : List ForeignKeyInfo) (indexes : List IndexInfo)
    (sampleData : List Row) : List ColumnProfile :=
  add_sample_values
    (mark_indexed (mark_foreign_keys (mark_primary_keys columns primaryKeys) foreignKeys) indexes)
    sampleData

/-- Source `find_self_referencing_columns`. -/
def find_self_referencing_columns (foreignKeys : List ForeignKeyInfo) (tableName : String) :
    List String :=
  (foreignKeys.filter (fun fk => fk.referenced_table = tableName)).map (fun fk => fk.column_name)

/-- The suffixes of the `fk_patterns` regexes of
`find_potential_fk_candidates` (each regex has the form dot-star suffix
dollar applied to the lowercased name, i.e. a suffix test). -/
def fk_name_suffixes : List String := ["_id", "_key", "_code", "_ref", "_fk"]

/-- Source `find_potential_fk_candidates`: non-PK non-FK columns whose
lowercased name ends in one of the suffixes; first matching pattern wins. -/
def find_potential_fk_candidates (columns : List ColumnProfile) : List FkCandidate :=
  columns.filterMap (fun c =>
    if !c.is_foreign_key && !c.is_primary_key then
      (fk_name_suffixes.find? (fun p => strEndsWith (strLower c.name) p)).map
        (fun p => { column_name := c.name, data_type := c.data_type,
                    reason := "Matches pattern: .*" ++ p ++ "$" })
    else none)

/-- Source `get_sample_data`: the query result truncated to `limit` rows
(`result[:limit] if result else []`); the call site uses the default
`limit = 5`. -/
def get_sample_data (result : List Row) (limit : Nat) : List Row := result.take limit

/-- The dictionary returned by `get_complete_table_metadata`. -/
structure TableMetadata where
  table_name : String
  columns : List ColumnProfile
  primary_keys : List String
  foreign_keys : List ForeignKeyInfo
  indexes : List IndexInfo
  sample_data : List Row
  row_count : Nat
  self_referencing_columns : List String
  potential_fk_candidates : List FkCandidate
deriving DecidableEq

/-- Source `get_complete_table_metadata`, with the raw query results as
inputs: sample data capped at 5 rows, fk candidates computed on the raw
(pre-enrichment) columns, columns then enriched. -/
def get_complete_table_metadata (tableName : String) (rawColumns : List ColumnProfile)
    (primaryKeys : List String) (foreignKeys : List ForeignKeyInfo)
    (indexes : List IndexInfo) (rawSample : List Row) (rowCount : Nat) : TableMetadata :=
  let sampleData := get_sample_data rawSample 5
  { table_name := tableName
    columns := enrich_column_profiles rawColumns primaryKeys foreignKeys indexes sampleData
    primary_keys := primaryKeys
    foreign_keys := foreignKeys
    indexes := indexes
    sample_data := sampleData
    row_count := rowCount
    self_referencing_columns := find_self_referencing_columns foreignKeys tableName
    potential_fk_candidates := find_potential_fk_candidates rawColumns }

/-! ## Core profiler (`core_profiler.py`) -/

/-- Source `_add_pattern_detection`: skip when the table has no sample
data; otherwise run detection for every column with sample values. -/
def add_pattern_detection (patternsCfg : List (String × PatternInfo)) (tp : TableProfile) :
    TableProfile :=
  if tp.sample_data.isEmpty then tp
  else
    { tp with columns := tp.columns.map (fun c =>
        if !c.sample_values.isEmpty then
          { c with detected_patterns := detect_patterns c.sample_values (some c.name) patternsCfg }
        else c) }

/-- Source `profile_table`: build the `TableProfile` from complete
metadata, drop sample data when disabled, then add pattern detection. -/
def profile_table (cfg : ProfilerConfig) (patternsCfg : List (String × PatternInfo))
    (tableName : String) (meta : TableMetadata) : TableProfile :=
  let tp : TableProfile :=
    { name := tableName
      schema := cfg.schema_name
      columns := meta.columns
      primary_keys := meta.primary_keys
      foreign_keys := meta.foreign_keys
      indexes := meta.indexes
      sample_data := if cfg.include_sample_data then meta.sample_data else []
      estimated_row_count := meta.row_count
      self_referencing_columns := meta.self_referencing_columns
      potential_fk_candidates := meta.potential_fk_candidates }
  if cfg.pattern_recognition_enabled then add_pattern_detection patternsCfg tp else tp

/-- Source `_analyze_cross_table_relationships`: one `foreign_key` entry
per declared FK. -/
def analyze_cross_table_relationships (tables : List TableProfile) : List Relationship :=
  tables.flatMap (fun t => t.foreign_keys.map (fun fk =>
    { rel_type := "foreign_key"
      from_table := t.name
      from_column := fk.column_name
      to_table := fk.referenced_table
      to_column := fk.referenced_column
      constraint_name := some fk.constraint_name }))

/-- Python dict assignment `m[key] = v`: update in place when the key
exists (keeping its position), else append. -/
def dictUpsert (m : List (String × α)) (key : String) (v : α) : List (String × α) :=
  if m.any (fun p => p.1 = key) then m.map (fun p => if p.1 = key then (key, v) else p)
  else m ++ [(key, v)]

/-- The `pk_map` of `_find_potential_relationships`: table name to first
primary-key column, for tables that have one. -/
def build_pk_map (tables : List TableProfile) : List (String × String) :=
  tables.foldl (fun m t =>
    match t.primary_keys with
    | [] => m
    | pk :: _ => dictUpsert m t.name pk) []

/-- The column-name heuristic of `_find_potential_relationships`
(`core_profiler.py` lines 270-272): lowercased name ends with
underscore-target-underscore-id, or ends with underscore-pk, or equals
target-underscore-id. -/
def potential_name_cond (columnName targetTable pkColumn : String) : Bool :=
  strEndsWith (strLower columnName) ("_" ++ strLower targetTable ++ "_id") ||
  strEndsWith (strLower columnName) ("_" ++ strLower pkColumn) ||
  (strLower columnName = strLower targetTable ++ "_id")

/-- The entry appended by `_find_potential_relationships`. -/
def mk_potential_entry (fromTable fromColumn toTable toColumn : String) : Relationship :=
  { rel_type := "potential_foreign_key"
    from_table := fromTable
    from_column := fromColumn
    to_table := toTable
    to_column := toColumn
    reason := some ("Column name pattern suggests relationship")
    confidence := some ("medium") }

/-- Source `_find_potential_relationships`: for every non-PK non-FK column
and every other table in `pk_map` (inlined as `build_pk_map tables`), emit
an entry when the name heuristic fires. No deduplication is performed. -/
def find_potential_relationships (tables : List TableProfile) : List Relationship :=
  tables.flatMap (fun t => t.columns.flatMap (fun c =>
    if !c.is_foreign_key && !c.is_primary_key then
      (build_pk_map tables).filterMap (fun tp =>
        if (tp.1 != t.name) && potential_name_cond c.name tp.1 tp.2 then
          some (mk_potential_entry t.name c.name tp.1 tp.2)
        else none)
    else []))

/-- Python `pattern_counts[p] = pattern_counts.get(p, 0) + 1`. -/
def dictIncr (m : List (String × Nat)) (key : String) : List (String × Nat) :=
  if m.any (fun p => p.1 = key) then m.map (fun p => if p.1 = key then (p.1, p.2 + 1) else p)
  else m ++ [(key, 1)]

/-- Source `_generate_pattern_summary`. -/
def generate_pattern_summary (tables : List TableProfile) : List (String × Nat) :=
  tables.foldl (fun m t =>
    t.columns.foldl (fun m c => c.detected_patterns.foldl dictIncr m) m) []

/-- Source `_analyze_schema_relationships`: fill the relationship fields
when `validate_relationships` is set; the pattern summary additionally
requires `pattern_recognition_enabled`. -/
def analyze_schema_relationships (cfg : ProfilerConfig) (sp : SchemaProfile) : SchemaProfile :=
  if !cfg.validate_relationships then sp
  else
    let sp1 := { sp with
      cross_table_relationships := analyze_cross_table_relationships sp.tables
      potential_relationships := find_potential_relationships sp.tables }
    if cfg.pattern_recognition_enabled then
      { sp1 with pattern_summary := generate_pattern_summary sp.tables }
    else sp1

/-- Source `profile_schema`: set `total_tables` from the table list,
profile every table accumulating `total_columns`, then analyze. The
per-table pipeline (which never raises) enters as `profileTable`. -/
def profile_schema (cfg : ProfilerConfig) (dbType : String) (tablesInfo : List String)
    (profileTable : String → TableProfile) : SchemaProfile :=
  let base : SchemaProfile :=
    { database_name := cfg.database_name
      schema_name := cfg.schema_name
      database_type := dbType
      total_tables := tablesInfo.length }
  if tablesInfo.isEmpty then base
  else
    let tableProfiles := tablesInfo.map profileTable
    analyze_schema_relationships cfg
      { base with
          tables := tableProfiles
          total_columns := (tableProfiles.map (fun t => t.columns.length)).sum }

/-! ## Processing strategies (`processing_strategies.py`)

The parallel strategy collects futures in completion order and then sorts
the list by table name; the embedding uses the submission order as the
representative completion order, so the sort result below stands for any
schedule. The sequential strategy appends in input order and never sorts. -/

/-- Sort key of `profiles.sort(key=lambda t: t.name)`. -/
def table_name_le (a b : TableProfile) : Bool := strLe a.name b.name

/-- Source `SequentialTableProcessor.process_tables`: profile in input
order, no sort (`profile_table` never raises, so no table is skipped). -/
def sequential_process_tables (profileTable : String → TableProfile)
    (tablesInfo : List String) : List TableProfile :=
  tablesInfo.map profileTable

/-- Source `ParallelTableProcessor.process_tables`: profile concurrently,
then sort the collected profiles by table name. -/
def parallel_process_tables (profileTable : String → TableProfile)
    (tablesInfo : List String) : List TableProfile :=
  stableSort table_name_le (tablesInfo.map profileTable)

/-- Source `AdaptiveTableProcessor.process_tables`. -/
def adaptive_process_tables (cfg : ProfilerConfig) (profileTable : String → TableProfile)
    (tablesInfo : List String) : List TableProfile :=
  if tablesInfo.length ≥ cfg.parallel_threshold ∧ cfg.max_workers > 1 then
    parallel_process_tables profileTable tablesInfo
  else
    sequential_process_tables profileTable tablesInfo

/-! ## Incremental manager (`incremental_manager.py`)

The profile cache is a dict from table name to `TableProfile`. The change
detector's verdict (`tables_to_profile`) and the current table list enter
as arguments; the branching and merging logic of `profile_incremental` is
embedded. -/

/-- Python `self.cache.get(table_name)`. -/
def dictGetTP (cache : List (String × TableProfile)) (key : String) : Option TableProfile :=
  match cache.find? (fun p => p.1 = key) with
  | some p => some p.2
  | none => none

/-- Source `_load_cached_schema_profile`: `total_tables` is the number of
current tables, but only tables found in the cache are appended (a cache
miss is skipped), accumulating `total_columns` over the appended ones. -/
def load_cached_schema_profile (cfg : ProfilerConfig) (currentTables : List String)
    (cache : List (String × TableProfile)) : SchemaProfile :=
  let cachedTabs := currentTables.filterMap (fun t => dictGetTP cache t)
  { database_name := cfg.database_name
    schema_name := cfg.schema_name
    database_type := "unknown"
    total_tables := currentTables.length
    tables := cachedTabs
    total_columns := (cachedTabs.map (fun t => t.columns.length)).sum }

/-- Source `_merge_profiles`: changed profiles first, then cached profiles
for the remaining current tables (cache misses skipped); `total_columns`
recomputed from the merged list, `total_tables` left at the number of
current tables; finally the list is sorted by name. -/
def merge_profiles (cfg : ProfilerConfig) (currentTables : List String)
    (changedProfiles : List TableProfile) (cache : List (String × TableProfile)) :
    SchemaProfile :=
  let changedNames := changedProfiles.map (fun p => p.name)
  let tabs := changedProfiles ++ currentTables.filterMap (fun t =>
    if changedNames.contains t then none else dictGetTP cache t)
  { database_name := cfg.database_name
    schema_name := cfg.schema_name
    database_type := "unknown"
    total_tables := currentTables.length
    total_columns := (tabs.map (fun t => t.columns.length)).sum
    tables := stableSort table_name_le tabs }

/-- The caching performed by `_profile_changed_tables`: each newly
profiled table is stored under its table name. -/
def cache_profiles (cache : List (String × TableProfile)) (names : List String)
    (profiles : List TableProfile) : List (String × TableProfile) :=
  (names.zip profiles).foldl (fun m p => dictUpsert m p.1 p.2) cache

/-- Source `profile_incremental` (the non-exceptional paths): empty table
list, no-changes (all-cached), or profile-changed-and-merge. -/
def profile_incremental (cfg : ProfilerConfig) (currentTables : List String)
    (tablesToProfile : List String) (profileTable : String → TableProfile)
    (cache : List (String × TableProfile)) : SchemaProfile :=
  if currentTables.isEmpty then
    { database_name := cfg.database_name
      schema_name := cfg.schema_name
      database_type := "unknown" }
  else if tablesToProfile.isEmpty then
    load_cached_schema_profile cfg currentTables cache
  else
    let changedProfiles := tablesToProfile.map profileTable
    let cache2 := cache_profiles cache tablesToProfile changedProfiles
    merge_profiles cfg currentTables changedProfiles cache2

/-- Source `DatabaseChangeDetector._has_data_changes`: with a positive
previous count, changed iff `|cur - prev| / prev` exceeds the threshold
strictly; with a zero previous count, changed iff the table now has rows.
The ratio is the exact rational `mkRat |cur - prev| prev`. -/
def has_data_changes (currentRowCount previousRowCount : Nat) (threshold : ℚ) : Bool :=
  if previousRowCount > 0 then
    decide (mkRat (((currentRowCount : ℤ) - (previousRowCount : ℤ)).natAbs)
      previousRowCount > threshold)
  else if currentRowCount > 0 then true
  else false

/-! ## Helper lemmas -/

theorem foldl_map_pointwise (f : β → α → α) (l : List β) (cols : List α) :
    l.foldl (fun cs b => cs.map (f b)) cols
      = cols.map (fun c => l.foldl (fun c b => f b c) c) := by
  induction l generalizing cols with
  | nil => simp
  | cons b bs ih =>
    simp only [List.foldl_cons]
    rw [ih (cols.map (f b)), List.map_map]
    simp [Function.comp]

theorem foldl_preserves {γ : Type} (g : α → β → α) (P : α → γ)
    (h : ∀ a b, P (g a b) = P a) : ∀ (l : List β) (a : α), P (l.foldl g a) = P a := by
  intro l
  induction l with
  | nil => intro a; rfl
  | cons b bs ih => intro a; rw [List.foldl_cons, ih, h]

theorem foldl_bool_mono (g : α → β → α) (P : α → Bool)
    (h : ∀ a b, P a = true → P (g a b) = true) :
    ∀ (l : List β) (a : α), P a = true → P (l.foldl g a) = true := by
  intro l
  induction l with
  | nil => intro a ha; exact ha
  | cons b bs ih => intro a ha; rw [List.foldl_cons]; exact ih _ (h a b ha)

/-- Pointwise form of marking loop 1. -/
def pk_mark_one (primaryKeys : List String) (c : ColumnProfile) : ColumnProfile :=
  if primaryKeys.contains c.name then { c with is_primary_key := true } else c

/-- Pointwise form of marking loop 2. -/
def fk_mark_one (foreignKeys : List ForeignKeyInfo) (c : ColumnProfile) : ColumnProfile :=
  foreignKeys.foldl (fun c fk =>
    if c.name = fk.column_name then
      { c with is_foreign_key := true,
               foreign_key_reference := some
                 { table := fk.referenced_table,
                   column := fk.referenced_column,
                   constraint := fk.constraint_name } }
    else c) c

/-- Pointwise form of marking loop 3. -/
def idx_mark_one (indexes : List IndexInfo) (c : ColumnProfile) : ColumnProfile :=
  indexes.foldl (fun c idx =>
    if c.name = idx.column_name then
      { c with is_indexed := true, is_unique := c.is_unique || idx.is_unique }
    else c) c

/-- Pointwise form of the sample-value step. -/
def sample_one (sampleData : List Row) (c : ColumnProfile) : ColumnProfile :=
  if sampleData.isEmpty then c
  else { c with sample_values := (sampleData.take 5).map (fun row => rowGet row c.name) }

/-- Pointwise form of the whole enrichment pipeline. -/
def enrich_one (primaryKeys : List String) (foreignKeys : List ForeignKeyInfo)
    (indexes : List IndexInfo) (sampleData : List Row) (c : ColumnProfile) : ColumnProfile :=
  sample_one sampleData (idx_mark_one indexes (fk_mark_one foreignKeys (pk_mark_one primaryKeys c)))

theorem mark_foreign_keys_eq (cols : List ColumnProfile) (fks : List ForeignKeyInfo) :
    mark_foreign_keys cols fks = cols.map (fk_mark_one fks) :=
  foldl_map_pointwise _ fks cols

theorem mark_indexed_eq (cols : List ColumnProfile) (idxs : List IndexInfo) :
    mark_indexed cols idxs = cols.map (idx_mark_one idxs) :=
  foldl_map_pointwise _ idxs cols

theorem enrich_eq_map (cols : List ColumnProfile) (pks : List String)
    (fks : List ForeignKeyInfo) (idxs : List IndexInfo) (sd : List Row) :
    enrich_column_profiles cols pks fks idxs sd = cols.map (enrich_one pks fks idxs sd) := by
  unfold enrich_column_profiles mark_primary_keys add_sample_values
  rw [mark_foreign_keys_eq, mark_indexed_eq, List.map_map, List.map_map]
  by_cases hsd : sd.isEmpty
  · rw [if_pos hsd]
    simp [enrich_one, sample_one, hsd, Function.comp, pk_mark_one]
  · rw [if_neg hsd]
    rw [List.map_map]
    simp [enrich_one, sample_one, hsd, Function.comp, pk_mark_one]

theorem fk_mark_one_name (fks : List ForeignKeyInfo) (c : ColumnProfile) :
    (fk_mark_one fks c).name = c.name :=
  foldl_preserves _ (fun c => c.name) (by intro a b; dsimp only; split <;> rfl) fks c

theorem idx_mark_one_name (idxs : List IndexInfo) (c : ColumnProfile) :
    (idx_mark_one idxs c).name = c.name :=
  foldl_preserves _ (fun c => c.name) (by intro a b; dsimp only; split <;> rfl) idxs c

theorem pk_mark_one_name (pks : List String) (c : ColumnProfile) :
    (pk_mark_one pks c).name = c.name := by
  unfold pk_mark_one; split <;> rfl

theorem fk_mark_one_is_nullable (fks : List ForeignKeyInfo) (c : ColumnProfile) :
    (fk_mark_one fks c).is_nullable = c.is_nullable :=
  foldl_preserves _ (fun c => c.is_nullable) (by intro a b; dsimp only; split <;> rfl) fks c

theorem idx_mark_one_is_nullable (idxs : List IndexInfo) (c : ColumnProfile) :
    (idx_mark_one idxs c).is_nullable = c.is_nullable :=
  foldl_preserves _ (fun c => c.is_nullable) (by intro a b; dsimp only; split <;> rfl) idxs c

theorem pk_mark_one_is_nullable (pks : List String) (c : ColumnProfile) :
    (pk_mark_one pks c).is_nullable = c.is_nullable := by
  unfold pk_mark_one; split <;> rfl

theorem fk_mark_one_is_primary_key (fks : List ForeignKeyInfo) (c : ColumnProfile) :
    (fk_mark_one fks c).is_primary_key = c.is_primary_key :=
  foldl_preserves _ (fun c => c.is_primary_key) (by intro a b; dsimp only; split <;> rfl) fks c

theorem idx_mark_one_is_primary_key (idxs : List IndexInfo) (c : ColumnProfile) :
    (idx_mark_one idxs c).is_primary_key = c.is_primary_key :=
  foldl_preserves _ (fun c => c.is_primary_key)
    (by intro a b; dsimp only; split <;> rfl) idxs c

theorem pk_mark_one_is_primary_key (pks : List String) (c : ColumnProfile) :
    (pk_mark_one pks c).is_primary_key = (c.is_primary_key || pks.contains c.name) := by
  by_cases h : c.name ∈ pks <;> simp [pk_mark_one, h]

theorem fk_mark_one_is_unique (fks : List ForeignKeyInfo) (c : ColumnProfile) :
    (fk_mark_one fks c).is_unique = c.is_unique :=
  foldl_preserves _ (fun c => c.is_unique) (by intro a b; dsimp only; split <;> rfl) fks c

theorem pk_mark_one_is_unique (pks : List String) (c : ColumnProfile) :
    (pk_mark_one pks c).is_unique = c.is_unique := by
  unfold pk_mark_one; split <;> rfl

theorem idx_mark_one_is_unique_mono (idxs : List IndexInfo) (c : ColumnProfile)
    (h : c.is_unique = true) : (idx_mark_one idxs c).is_unique = true :=
  foldl_bool_mono _ (fun c => c.is_unique)
    (by intro a b hab; dsimp only at hab ⊢; split
        · simp [hab]
        · exact hab) idxs c h

theorem fk_mark_one_sample_values (fks : List ForeignKeyInfo) (c : ColumnProfile) :
    (fk_mark_one fks c).sample_values = c.sample_values :=
  foldl_preserves _ (fun c => c.sample_values) (by intro a b; dsimp only; split <;> rfl) fks c

theorem idx_mark_one_sample_values (idxs : List IndexInfo) (c : ColumnProfile) :
    (idx_mark_one idxs c).sample_values = c.sample_values :=
  foldl_preserves _ (fun c => c.sample_values)
    (by intro a b; dsimp only; split <;> rfl) idxs c

theorem pk_mark_one_sample_values (pks : List String) (c : ColumnProfile) :
    (pk_mark_one pks c).sample_values = c.sample_values := by
  unfold pk_mark_one; split <;> rfl

theorem enrich_one_is_nullable (pks : List String) (fks : List ForeignKeyInfo)
    (idxs : List IndexInfo) (sd : List Row) (c : ColumnProfile) :
    (enrich_one pks fks idxs sd c).is_nullable = c.is_nullable := by
  unfold enrich_one sample_one
  split
  · rw [idx_mark_one_is_nullable, fk_mark_one_is_nullable, pk_mark_one_is_nullable]
  · show (idx_mark_one idxs (fk_mark_one fks (pk_mark_one pks c))).is_nullable = c.is_nullable
    rw [idx_mark_one_is_nullable, fk_mark_one_is_nullable, pk_mark_one_is_nullable]

theorem enrich_one_is_primary_key (pks : List String) (fks : List ForeignKeyInfo)
    (idxs : List IndexInfo) (sd : List Row) (c : ColumnProfile) :
    (enrich_one pks fks idxs sd c).is_primary_key
      = (c.is_primary_key || pks.contains c.name) := by
  unfold enrich_one sample_one
  split
  · rw [idx_mark_one_is_primary_key, fk_mark_one_is_primary_key, pk_mark_one_is_primary_key]
  · show (idx_mark_one idxs (fk_mark_one fks (pk_mark_one pks c))).is_primary_key
        = (c.is_primary_key || pks.contains c.name)
    rw [idx_mark_one_is_primary_key, fk_mark_one_is_primary_key, pk_mark_one_is_primary_key]

theorem enrich_one_is_unique_mono (pks : List String) (fks : List ForeignKeyInfo)
    (idxs : List IndexInfo) (sd : List Row) (c : ColumnProfile)
    (h : c.is_unique = true) : (enrich_one pks fks idxs sd c).is_unique = true := by
  have hbase : (fk_mark_one fks (pk_mark_one pks c)).is_unique = true := by
    rw [fk_mark_one_is_unique, pk_mark_one_is_unique]; exact h
  unfold enrich_one sample_one
  split
  · exact idx_mark_one_is_unique_mono idxs _ hbase
  · show (idx_mark_one idxs (fk_mark_one fks (pk_mark_one pks c))).is_unique = true
    exact idx_mark_one_is_unique_mono idxs _ hbase

theorem enrich_one_sample_values (pks : List String) (fks : List ForeignKeyInfo)
    (idxs : List IndexInfo) (sd : List Row) (c : ColumnProfile) :
    (enrich_one pks fks idxs sd c).sample_values
      = (if sd.isEmpty then c.sample_values
         else (sd.take 5).map (fun row => rowGet row c.name)) := by
  have hname : (idx_mark_one idxs (fk_mark_one fks (pk_mark_one pks c))).name = c.name := by
    rw [idx_mark_one_name, fk_mark_one_name, pk_mark_one_name]
  unfold enrich_one sample_one
  by_cases hsd : sd.isEmpty
  · rw [if_pos hsd, if_pos hsd, idx_mark_one_sample_values, fk_mark_one_sample_values,
        pk_mark_one_sample_values]
  · rw [if_neg hsd, if_neg hsd]
    simp [hname]

theorem analyze_preserves (cfg : ProfilerConfig) (sp : SchemaProfile) :
    (analyze_schema_relationships cfg sp).total_tables = sp.total_tables
    ∧ (analyze_schema_relationships cfg sp).total_columns = sp.total_columns
    ∧ (analyze_schema_relationships cfg sp).tables = sp.tables := by
  unfold analyze_schema_relationships
  split
  · exact ⟨rfl, rfl, rfl⟩
  · split <;> exact ⟨rfl, rfl, rfl⟩

theorem mem_if_list {α : Type} {b : Bool} {l : List α} {a : α} :
    a ∈ (if b then l else []) ↔ b = true ∧ a ∈ l := by
  cases b <;> simp

theorem if_some_eq_some {α : Type} {b : Bool} {x y : α} :
    (if b then some x else none) = some y ↔ b = true ∧ y = x := by
  cases b <;> simp [eq_comm]

theorem resolve_conflicts_short (d : List String) (hlen : d.length ≤ 1) :
    resolve_conflicts d = d := by
  unfold resolve_conflicts
  rw [if_pos hlen]

theorem resolve_conflicts_pair (d : List String) (top second : String) (rest2 : List String)
    (hlen : ¬ d.length ≤ 1) (hds : stableSort specLe d = top :: second :: rest2) :
    resolve_conflicts d =
      if top = "npi_identifier" || top = "email_address" then [top]
      else if (specificity second : ℤ) ≥ (specificity top : ℤ) - 2 then [top, second]
      else [top] := by
  unfold resolve_conflicts
  rw [if_neg hlen, hds]

theorem resolve_conflicts_claim_pair (d : List String) (top second : String)
    (rest2 : List String) (hds : stableSort specLe d = top :: second :: rest2) :
    resolve_conflicts_claim d =
      if top = "npi_identifier" || top = "email_address" then [top]
      else if ((specificity top : ℤ) - (specificity second : ℤ)).natAbs ≤ 2 then [top, second]
      else [top] := by
  unfold resolve_conflicts_claim
  rw [hds]

/-- Destructure the sorted list when the input has at least two elements. -/
theorem stableSort_two_of_length (d : List String) (hlen : ¬ d.length ≤ 1) :
    ∃ top second rest2, stableSort specLe d = top :: second :: rest2 := by
  have h2 : 2 ≤ (stableSort specLe d).length := by
    rw [length_stableSort]; omega
  rcases hds : stableSort specLe d with _ | ⟨top, _ | ⟨second, rest2⟩⟩
  · rw [hds] at h2; simp at h2
  · rw [hds] at h2; simp at h2
  · exact ⟨top, second, rest2, rfl⟩

theorem resolve_conflicts_length_le (d : List String) :
    (resolve_conflicts d).length ≤ 2 := by
  by_cases hlen : d.length ≤ 1
  · rw [resolve_conflicts_short d hlen]; omega
  · rcases stableSort_two_of_length d hlen with ⟨top, second, rest2, hds⟩
    rw [resolve_conflicts_pair d top second rest2 hlen hds]
    split
    · simp
    · split <;> simp

theorem resolve_conflicts_subset (d : List String) (p : String) :
    p ∈ resolve_conflicts d → p ∈ d := by
  by_cases hlen : d.length ≤ 1
  · rw [resolve_conflicts_short d hlen]; exact fun h => h
  · rcases stableSort_two_of_length d hlen with ⟨top, second, rest2, hds⟩
    have htop : top ∈ d := by
      rw [← mem_stableSort specLe d, hds]; exact List.mem_cons_self top _
    have hsecond : second ∈ d := by
      rw [← mem_stableSort specLe d, hds]
      exact List.mem_cons_of_mem top (List.mem_cons_self second rest2)
    rw [resolve_conflicts_pair d top second rest2 hlen hds]
    split
    · intro h
      rw [List.mem_singleton] at h
      exact h ▸ htop
    · split
      · intro h
        rcases List.mem_cons.mp h with h1 | h1
        · exact h1 ▸ htop
        · rw [List.mem_singleton] at h1
          exact h1 ▸ hsecond
      · intro h
        rw [List.mem_singleton] at h
        exact h ▸ htop

theorem specLe_total (a b : String) : specLe a b = true ∨ specLe b a = true := by
  unfold specLe
  rcases Nat.le_total (specificity b) (specificity a) with h | h
  · exact Or.inl (decide_eq_true h)
  · exact Or.inr (decide_eq_true h)

theorem specLe_trans (a b c : String) (h₁ : specLe a b = true) (h₂ : specLe b c = true) :
    specLe a c = true := by
  unfold specLe at h₁ h₂ ⊢
  exact decide_eq_true (Nat.le_trans (of_decide_eq_true h₂) (of_decide_eq_true h₁))

theorem sum_map_stableSort (le : α → α → Bool) (f : α → Nat) (l : List α) :
    ((stableSort le l).map f).sum = (l.map f).sum :=
  ((stableSort_perm le l).map f).sum_eq

theorem load_cached_fields (cfg : ProfilerConfig) (ct : List String)
    (cache : List (String × TableProfile)) :
    (load_cached_schema_profile cfg ct cache).total_columns
      = ((load_cached_schema_profile cfg ct cache).tables.map
          (fun t => t.columns.length)).sum
    ∧ (load_cached_schema_profile cfg ct cache).total_tables = ct.length :=
  ⟨rfl, rfl⟩

theorem merge_profiles_fields (cfg : ProfilerConfig) (ct : List String)
    (cp : List TableProfile) (cache : List (String × TableProfile)) :
    (merge_profiles cfg ct cp cache).total_columns
      = ((merge_profiles cfg ct cp cache).tables.map (fun t => t.columns.length)).sum
    ∧ (merge_profiles cfg ct cp cache).total_tables = ct.length := by
  refine ⟨?_, rfl⟩
  exact (sum_map_stableSort table_name_le (fun t => t.columns.length) _).symm

theorem profile_schema_fields (cfg : ProfilerConfig) (dbType : String)
    (ti : List String) (pt : String → TableProfile) :
    (profile_schema cfg dbType ti pt).total_tables
      = (profile_schema cfg dbType ti pt).tables.length
    ∧ (profile_schema cfg dbType ti pt).total_columns
      = ((profile_schema cfg dbType ti pt).tables.map (fun t => t.columns.length)).sum := by
  unfold profile_schema
  by_cases h : ti.isEmpty
  · rw [if_pos h]
    have h0 : ti = [] := by simpa using h
    subst h0
    exact ⟨rfl, rfl⟩
  · rw [if_neg h]
    refine ⟨?_, ?_⟩
    · rw [(analyze_preserves cfg _).1, (analyze_preserves cfg _).2.2]
      exact (List.length_map ti pt).symm
    · rw [(analyze_preserves cfg _).2.1, (analyze_preserves cfg _).2.2]

/-! ## The claims -/

/-- C1 (corrected). For `profile_schema` the returned `SchemaProfile` always
satisfies `total_tables = tables.length` and
`total_columns = Σ len(columns)`. On the incremental paths
(`profile_incremental`, covering the empty, all-cached and merge branches)
`total_columns` always equals the sum over the returned tables, but
`total_tables` is the number of *current* tables (0 when there are none),
which exceeds `tables.length` whenever a current table is neither freshly
profiled nor found in the cache. -/
theorem c1_totals_consistency :
    (∀ (cfg : ProfilerConfig) (dbType : String) (tablesInfo : List String)
        (profileTable : String → TableProfile),
      (profile_schema cfg dbType tablesInfo profileTable).total_tables
        = (profile_schema cfg dbType tablesInfo profileTable).tables.length
      ∧ (profile_schema cfg dbType tablesInfo profileTable).total_columns
        = ((profile_schema cfg dbType tablesInfo profileTable).tables.map
            (fun t => t.columns.length)).sum)
    ∧ (∀ (cfg : ProfilerConfig) (currentTables tablesToProfile : List String)
        (profileTable : String → TableProfile) (cache : List (String × TableProfile)),
      (profile_incremental cfg currentTables tablesToProfile profileTable cache).total_columns
        = ((profile_incremental cfg currentTables tablesToProfile profileTable cache).tables.map
            (fun t => t.columns.length)).sum
      ∧ (profile_incremental cfg currentTables tablesToProfile profileTable cache).total_tables
        = (if currentTables.isEmpty then 0 else currentTables.length)) := by
  constructor
  · intro cfg dbType ti pt
    exact profile_schema_fields cfg dbType ti pt
  · intro cfg ct ttp pt cache
    unfold profile_incremental
    by_cases h1 : ct.isEmpty
    · rw [if_pos h1, if_pos h1]
      exact ⟨rfl, rfl⟩
    · rw [if_neg h1, if_neg h1]
      by_cases h2 : ttp.isEmpty
      · rw [if_pos h2]
        exact ⟨(load_cached_fields cfg ct cache).1, (load_cached_fields cfg ct cache).2⟩
      · rw [if_neg h2]
        exact ⟨(merge_profiles_fields cfg ct _ _).1, (merge_profiles_fields cfg ct _ _).2⟩

/-- C1 counterexample: an incremental run with current tables `a,b` where
only `a` changed and the cache is empty returns `total_tables = 2` but
only one table, so `total_tables ≠ tables.length`, refuting the claim as
stated. -/
theorem c1_totals_counterexample :
    (profile_incremental ({ database_name := "db" } : ProfilerConfig) ["a", "b"] ["a"]
        (fun n => ({ name := n } : TableProfile)) []).total_tables = 2
    ∧ ((profile_incremental ({ database_name := "db" } : ProfilerConfig) ["a", "b"] ["a"]
        (fun n => ({ name := n } : TableProfile)) []).tables).length = 1 :=
  ⟨by decide, by decide⟩

/-- C2 (code bug). In an incremental run where the change detector reports
no changed tables and the table `t1` is missing from the `ProfileCache`,
the returned `SchemaProfile` silently omits `t1` (its `tables` list is
empty while `total_tables = 1`); the base profiler is never consulted,
contradicting the spec's "never silently omit". -/
theorem c2_cache_miss_omitted :
    (profile_incremental ({ database_name := "db" } : ProfilerConfig) ["t1"] []
        (fun n => ({ name := n } : TableProfile)) []).tables = []
    ∧ (profile_incremental ({ database_name := "db" } : ProfilerConfig) ["t1"] []
        (fun n => ({ name := n } : TableProfile)) []).total_tables = 1
    ∧ (load_cached_schema_profile ({ database_name := "db" } : ProfilerConfig) ["t1"] []).tables
        = [] :=
  ⟨by decide, by decide, by decide⟩

/-- C3 (corrected). Only the parallel strategy sorts its output by table
name; the sequential strategy returns profiles in input order, and the
adaptive strategy sorts exactly when it dispatches to the parallel one
(table count at or above the threshold and more than one worker). -/
theorem c3_ordering :
    ∀ (profileTable : String → TableProfile) (tablesInfo : List String)
      (cfg : ProfilerConfig),
      sequential_process_tables profileTable tablesInfo = tablesInfo.map profileTable
      ∧ SortedBy table_name_le (parallel_process_tables profileTable tablesInfo)
      ∧ adaptive_process_tables cfg profileTable tablesInfo
          = (if tablesInfo.length ≥ cfg.parallel_threshold ∧ cfg.max_workers > 1
             then parallel_process_tables profileTable tablesInfo
             else sequential_process_tables profileTable tablesInfo) := by
  intro pt ti cfg
  refine ⟨rfl, ?_, rfl⟩
  exact stableSort_sorted table_name_le (fun a b => strLe_total a.name b.name)
    (fun a b c h1 h2 => strLe_trans a.name b.name c.name h1 h2) _

/-- C3 counterexample: on input tables `b, a` the sequential strategy
returns the profiles in the order `b, a`, which is not sorted by name and
differs from the parallel strategy's output on the same input — refuting
"sorted for every strategy" and "same order regardless of strategy". -/
theorem c3_ordering_counterexample :
    (sequential_process_tables (fun n => ({ name := n } : TableProfile)) ["b", "a"]).map
        (fun t => t.name) = ["b", "a"]
    ∧ (parallel_process_tables (fun n => ({ name := n } : TableProfile)) ["b", "a"]).map
        (fun t => t.name) = ["a", "b"]
    ∧ sequential_process_tables (fun n => ({ name := n } : TableProfile)) ["b", "a"]
        ≠ parallel_process_tables (fun n => ({ name := n } : TableProfile)) ["b", "a"] :=
  ⟨by decide, by decide, by decide⟩

/-- C4 (corrected). Enrichment sets `is_primary_key` for the columns listed
in `primary_keys` but never forces `is_unique` or clears `is_nullable`
(it only raises `is_unique` via unique indexes and leaves `is_nullable`
untouched). The claimed invariant therefore holds exactly when the
extracted metadata already marks every primary-key column as unique and
non-nullable. -/
theorem c4_pk_invariant :
    ∀ (cols : List ColumnProfile) (pks : List String) (fks : List ForeignKeyInfo)
      (idxs : List IndexInfo) (sd : List Row),
      (∀ c0 ∈ cols, (c0.is_primary_key = true ∨ c0.name ∈ pks) →
          c0.is_unique = true ∧ c0.is_nullable = false) →
      ∀ c ∈ enrich_column_profiles cols pks fks idxs sd,
        c.is_primary_key = true → c.is_unique = true ∧ c.is_nullable = false := by
  intro cols pks fks idxs sd hmeta c hc hpk
  rw [enrich_eq_map] at hc
  rcases List.mem_map.mp hc with ⟨c0, hc0, rfl⟩
  rw [enrich_one_is_primary_key] at hpk
  have hm : c0.is_primary_key = true ∨ c0.name ∈ pks := by
    by_cases h : c0.is_primary_key = true
    · exact Or.inl h
    · right
      have hb : c0.is_primary_key = false := by simpa using h
      rw [hb, Bool.false_or] at hpk
      simpa using hpk
  rcases hmeta c0 hc0 hm with ⟨hu, hn⟩
  refine ⟨enrich_one_is_unique_mono pks fks idxs sd c0 hu, ?_⟩
  rw [enrich_one_is_nullable]
  exact hn

/-- Witness for C4: a metadata set that already marks the PK column unique
and non-nullable satisfies the hypothesis, and the enriched column then
satisfies the invariant. -/
theorem c4_pk_invariant_witness :
    (∀ c0 ∈ ([{ name := "id", data_type := "int", is_nullable := false,
                is_unique := true }] : List ColumnProfile),
        (c0.is_primary_key = true ∨ c0.name ∈ (["id"] : List String)) →
          c0.is_unique = true ∧ c0.is_nullable = false)
    ∧ (∀ c ∈ enrich_column_profiles
          [{ name := "id", data_type := "int", is_nullable := false, is_unique := true }]
          ["id"] [] [] [],
        c.is_primary_key = true → c.is_unique = true ∧ c.is_nullable = false) :=
  ⟨by decide, c4_pk_invariant _ _ _ _ _ (by decide)⟩

/-- C4 counterexample: a nullable column `id` with no unique index, listed
as a primary key, is enriched to `is_primary_key = true` while keeping
`is_unique = false` and `is_nullable = true`, violating the claimed
invariant. -/
theorem c4_pk_counterexample :
    (enrich_column_profiles [{ name := "id", data_type := "int", is_nullable := true }]
        ["id"] [] [] []).map (fun c => (c.is_primary_key, c.is_unique, c.is_nullable))
      = [(true, false, true)] := by decide

/-- C5 (corrected). An entry (confidence `medium`) is emitted exactly for a
non-PK non-FK column and a *different* table in the first-primary-key map
whose lowercased name ends with underscore-target-underscore-id, ends with
underscore-pk, or equals target-underscore-id — not the claimed four forms
— and the emitted list is not deduplicated. -/
theorem c5_potential_relationships :
    ∀ (tables : List TableProfile) (e : Relationship),
      e ∈ find_potential_relationships tables ↔
        ∃ t ∈ tables, ∃ c ∈ t.columns, ∃ tp ∈ build_pk_map tables,
          c.is_foreign_key = false ∧ c.is_primary_key = false ∧
          tp.1 ≠ t.name ∧ potential_name_cond c.name tp.1 tp.2 = true ∧
          e = mk_potential_entry t.name c.name tp.1 tp.2 := by
  intro tables e
  unfold find_potential_relationships
  rw [List.mem_flatMap]
  constructor
  · rintro ⟨t, ht, he⟩
    rw [List.mem_flatMap] at he
    rcases he with ⟨c, hc, he2⟩
    rw [mem_if_list] at he2
    rcases he2 with ⟨hflag, he3⟩
    rw [List.mem_filterMap] at he3
    rcases he3 with ⟨tp, htp, heq⟩
    rw [if_some_eq_some] at heq
    rcases heq with ⟨hcond, rfl⟩
    have hflag2 : c.is_foreign_key = false ∧ c.is_primary_key = false := by
      simpa using hflag
    have hcond2 : tp.1 ≠ t.name ∧ potential_name_cond c.name tp.1 tp.2 = true := by
      simpa using hcond
    exact ⟨t, ht, c, hc, tp, htp, hflag2.1, hflag2.2, hcond2.1, hcond2.2, rfl⟩
  · rintro ⟨t, ht, c, hc, tp, htp, hfk, hpk, hne, hname, rfl⟩
    refine ⟨t, ht, ?_⟩
    rw [List.mem_flatMap]
    refine ⟨c, hc, ?_⟩
    rw [mem_if_list]
    refine ⟨by simp [hfk, hpk], ?_⟩
    rw [List.mem_filterMap]
    refine ⟨tp, htp, ?_⟩
    rw [if_some_eq_some]
    exact ⟨by simp [hne, hname], rfl⟩

/-- Concrete tables for the C5 counterexample. -/
def c5Customer : TableProfile :=
  { name := "customer"
    primary_keys := ["id"]
    columns := [{ name := "id", data_type := "int", is_nullable := false,
                  is_primary_key := true }] }

def c5OrdersA : TableProfile :=
  { name := "orders"
    columns := [{ name := "customer_key", data_type := "varchar", is_nullable := true },
                { name := "x_customer_id", data_type := "int", is_nullable := true }] }

def c5OrdersB : TableProfile :=
  { name := "orders"
    columns := [{ name := "x_customer_id", data_type := "int", is_nullable := true }] }

def c5Entry : Relationship :=
  mk_potential_entry ("orders") ("x_customer_id") ("customer") ("id")

/-- The four naming forms of the claim, modelled from the claim's words:
lowercased column name equals target-underscore-id,
target-underscore-pk, target-underscore-key, or the pk column name. -/
def claim_four_form_cond (columnName targetTable pkColumn : String) : Bool :=
  strLower columnName = strLower targetTable ++ "_id" ||
  strLower columnName = strLower targetTable ++ "_" ++ strLower pkColumn ||
  strLower columnName = strLower targetTable ++ "_key" ||
  strLower columnName = strLower pkColumn

/-- C5 counterexample: `customer_key` matches the claimed
target-underscore-key form, yet no entry is emitted for it; and the same
entry is emitted twice (two tables named `orders` with the same column),
so the output is not deduplicated on the quadruple. -/
theorem c5_potential_counterexample :
    find_potential_relationships [c5Customer, c5OrdersA, c5OrdersB] = [c5Entry, c5Entry]
    ∧ claim_four_form_cond ("customer_key") ("customer") ("id") = true
    ∧ ((find_potential_relationships [c5Customer, c5OrdersA, c5OrdersB]).filter
          (fun r => r.from_column == "customer_key")).length = 0
    ∧ ¬ (find_potential_relationships [c5Customer, c5OrdersA, c5OrdersB]).Nodup :=
  ⟨by decide, by decide, by decide, by decide⟩

/-- C6 (confirmed). Conflict resolution behaves exactly as the claim
describes: sort by the fixed specificity table (descending, stable); if
the most specific pattern is `npi_identifier` or `email_address`, return
only it; otherwise return the most specific plus the second-most-specific
exactly when its specificity is within 2 of the top. -/
theorem c6_resolve_conflicts :
    ∀ detected : List String, resolve_conflicts detected = resolve_conflicts_claim detected := by
  intro detected
  by_cases hlen : detected.length ≤ 1
  · rw [resolve_conflicts_short detected hlen]
    rcases detected with _ | ⟨a, _ | ⟨b, rest⟩⟩
    · rfl
    · show [a] = resolve_conflicts_claim [a]
      unfold resolve_conflicts_claim
      split
      · rename_i heq
        exact heq
      · rename_i top tail heq
        injection heq with h1 h2
        subst h1
        subst h2
        split <;> rfl
    · simp at hlen
  · rcases stableSort_two_of_length detected hlen with ⟨top, second, rest2, hds⟩
    rw [resolve_conflicts_pair detected top second rest2 hlen hds,
        resolve_conflicts_claim_pair detected top second rest2 hds]
    have hsorted := stableSort_sorted specLe specLe_total specLe_trans detected
    rw [hds] at hsorted
    have hts : specificity second ≤ specificity top := by
      have h1 : specLe top second = true :=
        List.rel_of_pairwise_cons hsorted (List.mem_cons_self second rest2)
      exact of_decide_eq_true h1
    by_cases hnpi : (top = "npi_identifier" || top = "email_address") = true
    · rw [if_pos hnpi, if_pos hnpi]
    · rw [if_neg hnpi, if_neg hnpi]
      by_cases hcond : (specificity second : ℤ) ≥ (specificity top : ℤ) - 2
      · rw [if_pos hcond,
            if_pos (show ((specificity top : ℤ) - (specificity second : ℤ)).natAbs ≤ 2 by omega)]
      · rw [if_neg hcond,
            if_neg (show ¬ ((specificity top : ℤ) - (specificity second : ℤ)).natAbs ≤ 2 by omega)]

/-- C7 (corrected). The minimum-sample check is applied to the *raw* value
list (nulls and whitespace-only entries included), before filtering:
detection returns the empty list exactly on inputs with fewer than 3 raw
values or with no non-empty string values; with 3 raw values of which only
one is a non-empty string, patterns can still be emitted. -/
theorem c7_min_sample :
    ∀ (values : List (Option String)) (fieldName : Option String)
      (patternsCfg : List (String × PatternInfo)),
      values.length < minSampleSize ∨ strip_values values = [] →
      detect_patterns values fieldName patternsCfg = [] := by
  intro v fn cfg h
  unfold detect_patterns
  rcases h with h | h
  · rw [if_pos h]
  · by_cases h1 : v.length < minSampleSize
    · rw [if_pos h1]
    · rw [if_neg h1]
      simp [h]

def c7PatternsCfg : List (String × PatternInfo) :=
  [("p", { hasRegexKey := true, regexCompiled := some (fun _ => true) })]

/-- Witness for C7: a two-element input is rejected. -/
theorem c7_min_sample_witness :
    (([some ("x"), some ("y")] : List (Option String)).length < minSampleSize
      ∨ strip_values [some ("x"), some ("y")] = [])
    ∧ detect_patterns [some ("x"), some ("y")] none c7PatternsCfg = [] :=
  ⟨Or.inl (by decide),
   c7_min_sample [some ("x"), some ("y")] none c7PatternsCfg (Or.inl (by decide))⟩

/-- C7 counterexample: three raw values of which only one is a non-empty
string (fewer than 3 non-empty string values) still produce a detected
pattern, refuting the claim as stated. -/
theorem c7_min_sample_counterexample :
    detect_patterns [some ("x"), none, none] none c7PatternsCfg = ["p"]
    ∧ (strip_values [some ("x"), none, none]).length = 1 :=
  ⟨by decide, by decide⟩

/-- C8 (corrected). A column's `sample_values` is the ordered list of that
column's values in the first `min(5, len(sample_data))` sample rows —
nulls and duplicates included, never deduplicated, and independent of
`cfg.sample_data_limit` (the extractor always uses the hard-coded default
of 5); `sample_data` itself is the raw query result truncated to 5 rows. -/
theorem c8_sample_values :
    ∀ (cols : List ColumnProfile) (pks : List String) (fks : List ForeignKeyInfo)
      (idxs : List IndexInfo) (sd : List Row) (tableName : String)
      (rawSample : List Row) (rowCount : Nat),
      ((enrich_column_profiles cols pks fks idxs sd).map (fun c => c.sample_values)
        = cols.map (fun c =>
            if sd.isEmpty then c.sample_values
            else (sd.take 5).map (fun row => rowGet row c.name)))
      ∧ (get_complete_table_metadata tableName cols pks fks idxs rawSample rowCount).sample_data
          = rawSample.take 5 := by
  intro cols pks fks idxs sd tn raw rc
  refine ⟨?_, rfl⟩
  rw [enrich_eq_map, List.map_map]
  exact congrArg (fun f => List.map f cols)
    (funext fun c => enrich_one_sample_values pks fks idxs sd c)

/-- C8 counterexample: three sample rows with a repeated value and a null
produce `sample_values` containing duplicates and a null, refuting
"distinct non-null"; the list is non-empty regardless of any configured
sample limit. -/
theorem c8_sample_counterexample :
    ((enrich_column_profiles [{ name := "x", data_type := "int", is_nullable := true }]
        [] [] [] [[("x", some ("v"))], [("x", some ("v"))], [("x", none)]]).map
          (fun c => c.sample_values))
      = [[some ("v"), some ("v"), none]]
    ∧ ¬ ([some ("v"), some ("v"), (none : Option String)].Nodup)
    ∧ (none : Option String) ∈ [some ("v"), some ("v"), (none : Option String)] :=
  ⟨by decide, by decide, by decide⟩

/-- C9 (confirmed). With previous count positive the detector marks the
table data-changed exactly when `|cur - prev| / prev` strictly exceeds the
threshold; with previous count 0 exactly when the current count is
positive. Hence threshold 0 flags any non-zero delta from a positive
previous count, 1000 to 1200 is flagged at threshold 0.10, and 1000 to
1050 is not. -/
theorem c9_data_change :
    (∀ (cur prev : Nat) (t : ℚ),
      has_data_changes cur prev t = true ↔
        ((0 < prev ∧ t < ((((cur : ℤ) - (prev : ℤ)).natAbs : ℚ) / (prev : ℚ)))
          ∨ (prev = 0 ∧ 0 < cur)))
    ∧ (∀ cur prev : Nat, 0 < prev →
        (has_data_changes cur prev 0 = true ↔ cur ≠ prev))
    ∧ has_data_changes 1200 1000 (mkRat 1 10) = true
    ∧ has_data_changes 1050 1000 (mkRat 1 10) = false := by
  have hmk : ∀ (n d : ℕ), (mkRat (n : ℤ) d : ℚ) = (n : ℚ) / (d : ℚ) := by
    intro n d
    rw [Rat.mkRat_eq_divInt, Rat.divInt_eq_div]
    push_cast
    rfl
  refine ⟨?_, ?_, by decide, by decide⟩
  · intro cur prev t
    unfold has_data_changes
    by_cases hp : prev > 0
    · rw [if_pos hp]
      simp only [decide_eq_true_eq]
      constructor
      · intro h
        refine Or.inl ⟨hp, ?_⟩
        rw [← hmk]
        exact h
      · rintro (⟨_, h⟩ | ⟨h0, _⟩)
        · rw [← hmk] at h
          exact h
        · omega
    · rw [if_neg hp]
      have h0 : prev = 0 := by omega
      subst h0
      by_cases hc : cur > 0
      · rw [if_pos hc]
        simp [hc]
      · rw [if_neg hc]
        constructor
        · intro h
          simp at h
        · rintro (⟨h, _⟩ | ⟨_, h⟩)
          · simp at h
          · omega
  · intro cur prev hp
    unfold has_data_changes
    rw [if_pos hp]
    simp only [decide_eq_true_eq]
    rw [hmk]
    constructor
    · intro h heq
      subst heq
      simp at h
    · intro hne
      have hnz : ((cur : ℤ) - (prev : ℤ)).natAbs ≠ 0 := by omega
      apply div_pos
      · exact_mod_cast Nat.pos_of_ne_zero hnz
      · exact_mod_cast hp

/-- Witness for C9: threshold 0, previous 1000, current 1001 is flagged. -/
theorem c9_data_change_witness :
    0 < 1000 ∧ (has_data_changes 1001 1000 0 = true ↔ 1001 ≠ 1000) :=
  ⟨by decide, c9_data_change.2.1 1001 1000 (by decide)⟩

/-- C10 (confirmed). Detection returns at most two pattern names, each of
which is a key of the loaded pattern configuration. -/
theorem c10_detect_bounds :
    ∀ (values : List (Option String)) (fieldName : Option String)
      (patternsCfg : List (String × PatternInfo)),
      (detect_patterns values fieldName patternsCfg).length ≤ 2
      ∧ ((detect_patterns values fieldName patternsCfg).all
          (fun p => patternsCfg.any (fun q => q.1 == p))) = true := by
  intro values fn cfg
  unfold detect_patterns
  by_cases h1 : values.length < minSampleSize
  · rw [if_pos h1]
    exact ⟨by simp, rfl⟩
  · rw [if_neg h1]
    by_cases h2 : (strip_values values).isEmpty
    · rw [if_pos h2]
      exact ⟨by simp, rfl⟩
    · rw [if_neg h2]
      refine ⟨resolve_conflicts_length_le _, ?_⟩
      rw [List.all_eq_true]
      intro p hp
      have hd := resolve_conflicts_subset _ p hp
      rw [List.mem_filterMap] at hd
      rcases hd with ⟨q, hq, heq⟩
      rw [if_some_eq_some] at heq
      rcases heq with ⟨_, rfl⟩
      rw [List.any_eq_true]
      exact ⟨q, hq, by simp⟩

end SchemaMapping
